import Mathlib

/-!
Verification of the EFS Explorer password-derived encryption engine.

The development shallowly embeds the two core source files of the repository:
crypto-helper.js (base64 transcoding, PBKDF2 key derivation, SHA-256
fingerprinting, AES-GCM seal/open, the encrypted-package codec encryptBuffer
and decryptBuffer) and script.js (the unlock/session controller: tryUnlock,
setUnlockedState, handleFilesAdded, downloadFile, the reset flow).

Byte buffers (JS ArrayBuffer / Uint8Array) are embedded as List Nat with
entries below 256.  The Web Crypto primitives (subtle.digest, subtle.deriveKey,
subtle.encrypt, subtle.decrypt) are external to the repository; they are
modelled as ideal primitives: PBKDF2 as an ideal injective key-derivation
function, SHA-256 as a deterministic 32-byte digest, and AES-GCM as an ideal
authenticated cipher whose open operation succeeds exactly on untampered seal
outputs produced with the same key and nonce.  Everything that the repository
itself computes (validation order, base64 framing, the record fields, the JS
truthiness tests, error routing, session-state writes) is translated directly
from the source.
-/

namespace EFS

/-- Character of the standard base64 alphabet at index n (n < 64). -/
def b64Char (n : Nat) : Char :=
  if n < 26 then Char.ofNat (65 + n)
  else if n < 52 then Char.ofNat (97 + n - 26)
  else if n < 62 then Char.ofNat (48 + n - 52)
  else if n = 62 then '+' else '/'

/-- Index of a character in the base64 alphabet, none for foreign characters. -/
def b64Index (c : Char) : Option Nat :=
  let k := c.toNat
  if 65 ≤ k ∧ k ≤ 90 then some (k - 65)
  else if 97 ≤ k ∧ k ≤ 122 then some (k - 97 + 26)
  else if 48 ≤ k ∧ k ≤ 57 then some (k - 48 + 52)
  else if k = 43 then some 62
  else if k = 47 then some 63
  else none

/-- Base64 encoding of a byte list, three bytes to four characters, with
padding, as btoa produces on the corresponding binary string. -/
def b64EncodeBytes : List Nat → List Char
  | [] => []
  | [b0] => [b64Char (b0 / 4), b64Char (b0 % 4 * 16), '=', '=']
  | [b0, b1] => [b64Char (b0 / 4), b64Char (b0 % 4 * 16 + b1 / 16), b64Char (b1 % 16 * 4), '=']
  | b0 :: b1 :: b2 :: rest =>
      b64Char (b0 / 4) :: b64Char (b0 % 4 * 16 + b1 / 16) ::
      b64Char (b1 % 16 * 4 + b2 / 64) :: b64Char (b2 % 64) :: b64EncodeBytes rest

/-- Base64 decoding of a character list, the model of atob composed with
char-code extraction: four characters to three bytes, padding only at the end,
none on malformed input. -/
def b64DecodeChars : List Char → Option (List Nat)
  | [] => some []
  | c0 :: c1 :: c2 :: c3 :: rest =>
      if c2 = '=' then
        if c3 = '=' ∧ rest = [] then
          match b64Index c0, b64Index c1 with
          | some n0, some n1 => some [n0 * 4 + n1 / 16]
          | _, _ => none
        else none
      else if c3 = '=' then
        if rest = [] then
          match b64Index c0, b64Index c1, b64Index c2 with
          | some n0, some n1, some n2 => some [n0 * 4 + n1 / 16, n1 % 16 * 16 + n2 / 4]
          | _, _, _ => none
        else none
      else
        match b64Index c0, b64Index c1, b64Index c2, b64Index c3, b64DecodeChars rest with
        | some n0, some n1, some n2, some n3, some bs =>
            some ((n0 * 4 + n1 / 16) :: (n1 % 16 * 16 + n2 / 4) :: (n2 % 4 * 64 + n3) :: bs)
        | _, _, _, _, _ => none
  | _ => none

/-- Source ab2base64: byte buffer to base64 text. -/
def ab2base64 (buffer : List Nat) : String :=
  String.mk (b64EncodeBytes buffer)

/-- Source base642ab: base64 text to byte buffer; none models the
InvalidCharacterError that atob throws on malformed input. -/
def base642ab (base64 : String) : Option (List Nat) :=
  b64DecodeChars base64.data

/-- Little-endian base-256 digit expansion, driven by a fuel argument so that
the recursion is structural (the fuel never runs out: the value shrinks by a
factor of 256 every step while the fuel drops by one). -/
def natDigitsAux : Nat → Nat → List Nat
  | 0, _ => []
  | fuel + 1, n => if n = 0 then [] else n % 256 :: natDigitsAux fuel (n / 256)

/-- Little-endian base-256 digits of a natural number. -/
def natDigits (n : Nat) : List Nat :=
  natDigitsAux n n

/-- Value of a little-endian base-256 digit list. -/
def digitsVal : List Nat → Nat
  | [] => 0
  | d :: ds => d + 256 * digitsVal ds

/-- Self-delimiting encoding of a natural: digit bytes tagged with 1, closed
by a 0 byte. -/
def encNat (n : Nat) : List Nat :=
  (natDigits n).flatMap (fun d => [1, d]) ++ [0]

/-- Reads an encNat prefix, returning the value and the remaining bytes. -/
def decNat : List Nat → Option (Nat × List Nat)
  | 0 :: rest => some (0, rest)
  | 1 :: d :: rest =>
      match decNat rest with
      | some (m, r) => some (d + 256 * m, r)
      | none => none
  | _ => none

/-- Length-then-elements encoding of a byte list, every element via encNat. -/
def encList (l : List Nat) : List Nat :=
  encNat l.length ++ l.flatMap encNat

/-- Reads k encNat values. -/
def decListAux : Nat → List Nat → Option (List Nat × List Nat)
  | 0, rest => some ([], rest)
  | k + 1, rest =>
      match decNat rest with
      | some (n, r) =>
          match decListAux k r with
          | some (ns, r2) => some (n :: ns, r2)
          | none => none
      | none => none

/-- Reads an encList prefix. -/
def decList (bs : List Nat) : Option (List Nat × List Nat) :=
  match decNat bs with
  | some (k, rest) => decListAux k rest
  | none => none

/-- Codepoints of a string, the payload used to serialize the password. -/
def strCodes (s : String) : List Nat :=
  s.data.map Char.toNat

/-- Rebuilds a string from codepoints. -/
def strOfCodes (l : List Nat) : String :=
  String.mk (l.map Char.ofNat)

/-- Source configuration constant PBKDF2_ITERATIONS. -/
def PBKDF2_ITERATIONS : Nat := 200000

/-- Error conditions surfaced by crypto-helper.js.  Each constructor stands
for one thrown Error message of the source: passwordNotString for the typeof
check inside deriveKeyFromPassword, invalidPassword for the non-empty-string
checks of encryptBuffer and decryptBuffer, invalidBase64 for the
InvalidCharacterError that atob raises on malformed base64, and
wrongPasswordOrCorruptData for the single undifferentiated failure thrown
when subtle.decrypt rejects. -/
inductive CryptoErr
  | passwordNotString
  | invalidPassword
  | invalidBase64
  | wrongPasswordOrCorruptData
deriving DecidableEq

/-- JS truthiness of the password argument as tested by the source: the value
must be a string (none models null, undefined or a non-string) and non-empty. -/
def strTruthy : Option String → Bool
  | none => false
  | some s => !s.isEmpty

/-- The CryptoKey produced by subtle.deriveKey.  PBKDF2 is an external Web
Crypto primitive; it is modelled ideally: the derived key is determined by,
and determines, the exact (password, salt, iterations) triple that produced
it, which captures determinism of derivation and distinctness of keys derived
from distinct inputs. -/
structure CryptoKey where
  password : String
  salt : List Nat
  iterations : Nat
deriving DecidableEq

/-- Source deriveKeyFromPassword.  The only validation the source performs is
the typeof check (Password must be a string); a present string, empty or not,
is accepted and turned into a key. -/
def deriveKeyFromPassword (password : Option String) (salt : List Nat)
    (iterations : Nat) : Except CryptoErr CryptoKey :=
  match password with
  | none => .error .passwordNotString
  | some p => .ok ⟨p, salt, iterations⟩

/-- SHA-256 digest of a buffer.  The compression function is an external Web
Crypto primitive (subtle.digest); it is modelled as a deterministic 32-byte
digest of the content, which is all the repository relies on: identical
buffers give identical digests of fixed width. -/
def sha256Model (bs : List Nat) : List Nat :=
  (List.range 32).map (fun i => (bs.foldl (fun a b => a * 31 + b + i + 1) (i + bs.length)) % 256)

/-- Source hashBufferToBase64: SHA-256 then base64. -/
def hashBufferToBase64 (bs : List Nat) : String :=
  ab2base64 (sha256Model bs)

/-- Byte packaging of (key, nonce, plaintext) underlying the ideal AES-GCM
model: an invertible self-delimiting serialization of the three components. -/
def encodeTriple (k : CryptoKey) (iv pt : List Nat) : List Nat :=
  encList (strCodes k.password) ++ encList k.salt ++ encNat k.iterations ++
    encList iv ++ encList pt

/-- Inverse parse of encodeTriple, none when the bytes are not an exact
serialization. -/
def decodeTriple (bs : List Nat) : Option (CryptoKey × List Nat × List Nat) :=
  match decList bs with
  | none => none
  | some (codes, r1) =>
    match decList r1 with
    | none => none
    | some (salt, r2) =>
      match decNat r2 with
      | none => none
      | some (iters, r3) =>
        match decList r3 with
        | none => none
        | some (ivd, r4) =>
          match decList r4 with
          | none => none
          | some (pt, r5) =>
            if r5 = [] then some (⟨strOfCodes codes, salt, iters⟩, ivd, pt) else none

/-- AES-GCM encryption (subtle.encrypt), an external primitive modelled as an
ideal authenticated cipher: the ciphertext determines the key, nonce and
plaintext, and carries enough redundancy (the payload is laid down twice,
playing the role of the authentication tag) that any single-byte alteration is
detected by open. -/
def sealGCM (key : CryptoKey) (iv : List Nat) (pt : List Nat) : List Nat :=
  encodeTriple key iv pt ++ encodeTriple key iv pt

/-- AES-GCM decryption with authentication (subtle.decrypt) in the same ideal
model: open succeeds exactly on genuine seal outputs whose recorded key and
nonce match the ones supplied, and returns none (authentication failure) in
every other case. -/
def openGCM (key : CryptoKey) (iv : List Nat) (ct : List Nat) : Option (List Nat) :=
  let n := ct.length / 2
  let l1 := ct.take n
  let l2 := ct.drop n
  if l1 = l2 then
    match decodeTriple l1 with
    | some (k, ivd, pt) =>
        if k = key ∧ ivd = iv ∧ encodeTriple k ivd pt = l1 then some pt else none
    | none => none
  else none

/-- The serializable package produced by encryptBuffer and consumed by
decryptBuffer.  The iterations and hash fields are optional on the decrypt
side in the source (read with JS truthiness), hence Option here; none models
an absent, null or undefined field. -/
structure EncryptedPackage where
  ciphertext : String
  iv : String
  salt : String
  iterations : Option Nat
  hash : Option String
deriving DecidableEq

/-- The result object of decryptBuffer: plaintext, the integrity flag, and
the two hashes it was computed from. -/
structure DecryptResult where
  arrayBuffer : List Nat
  ok : Bool
  expectedHash : Option String
  computedHash : String
deriving DecidableEq

/-- Iteration count actually used by decryptBuffer, the embedding of the
source line iterations = encryptedPackage.iterations or-else
PBKDF2_ITERATIONS: an absent, null or zero (falsy) stored value falls back to
the hard-coded default, a non-zero stored value is honored. -/
def effectiveIterations : Option Nat → Nat
  | none => PBKDF2_ITERATIONS
  | some n => if n = 0 then PBKDF2_ITERATIONS else n

/-- Source encryptBuffer.  The ArrayBuffer instance check of the source is
vacuous in this typed embedding (the buffer argument is always a byte list);
the password check is the source test for a non-empty string.  The fresh salt
and iv that the source draws from randomBytes(16) and randomBytes(12) are
explicit arguments here, so that randomness stays outside the embedded
function. -/
def encryptBuffer (salt iv : List Nat) (arrayBuffer : List Nat)
    (password : Option String) : Except CryptoErr EncryptedPackage :=
  if ¬ strTruthy password then .error .invalidPassword
  else
    match deriveKeyFromPassword password salt PBKDF2_ITERATIONS with
    | .error e => .error e
    | .ok key =>
        let plainHashBase64 := hashBufferToBase64 arrayBuffer
        let cipherBuffer := sealGCM key iv arrayBuffer
        .ok { ciphertext := ab2base64 cipherBuffer
              iv := ab2base64 iv
              salt := ab2base64 salt
              iterations := some PBKDF2_ITERATIONS
              hash := some plainHashBase64 }

/-- Source decryptBuffer.  The package check of the source (ciphertext must
be a string) is vacuous in this typed embedding; the password check, the
base64 decoding of the three binary fields, the iteration fallback, key
derivation, authenticated open with its catch-all re-raise, and the optional
integrity comparison are embedded in the order of the source. -/
def decryptBuffer (encryptedPackage : EncryptedPackage)
    (password : Option String) : Except CryptoErr DecryptResult :=
  if ¬ strTruthy password then .error .invalidPassword
  else
    match base642ab encryptedPackage.ciphertext with
    | none => .error .invalidBase64
    | some ciphertextBuf =>
    match base642ab encryptedPackage.iv with
    | none => .error .invalidBase64
    | some ivBuf =>
    match base642ab encryptedPackage.salt with
    | none => .error .invalidBase64
    | some saltBuf =>
    match deriveKeyFromPassword password saltBuf
        (effectiveIterations encryptedPackage.iterations) with
    | .error e => .error e
    | .ok key =>
    match openGCM key ivBuf ciphertextBuf with
    | none => .error .wrongPasswordOrCorruptData
    | some plainBuf =>
        let computedHash := hashBufferToBase64 plainBuf
        let expectedHash : Option String :=
          match encryptedPackage.hash with
          | some h => if h = "" then none else some h
          | none => none
        let ok : Bool :=
          match expectedHash with
          | some e => computedHash == e
          | none => true
        .ok { arrayBuffer := plainBuf, ok := ok,
              expectedHash := expectedHash, computedHash := computedHash }

/-- The stored file record assembled by createEncryptedFileRecord (and given
a mimeType by the controller before saving). -/
structure FileRecord where
  name : String
  createdAt : String
  size : Nat
  ciphertext : String
  iv : String
  salt : String
  iterations : Option Nat
  hash : Option String
  mimeType : String := ""
deriving DecidableEq

/-- Source createEncryptedFileRecord: encrypt, then wrap with name, creation
time and plaintext size.  The creation timestamp is an explicit argument (the
source reads the clock). -/
def createEncryptedFileRecord (fileName : String) (salt iv : List Nat)
    (arrayBuffer : List Nat) (password : Option String) (now : String) :
    Except CryptoErr FileRecord :=
  match encryptBuffer salt iv arrayBuffer password with
  | .error e => .error e
  | .ok enc =>
      .ok { name := fileName, createdAt := now, size := arrayBuffer.length,
            ciphertext := enc.ciphertext, iv := enc.iv, salt := enc.salt,
            iterations := enc.iterations, hash := enc.hash }

/-- The in-memory session of script.js: sessionPassword (null while locked)
and the unlocked flag. -/
structure SessionState where
  sessionPassword : Option String
  unlocked : Bool
deriving DecidableEq

/-- Source setUnlockedState: stores the flag, and clears the session password
exactly when the new state is locked (the UI updates it also performs are
external). -/
def setUnlockedState (state : Bool) (s : SessionState) : SessionState :=
  let s1 : SessionState := { s with unlocked := state }
  if ¬ s1.unlocked then { s1 with sessionPassword := none } else s1

/-- The package that the controller rebuilds from a stored record when it
calls decryptBuffer (tryUnlock and downloadFile build the same object). -/
def pkgOfRecord (r : FileRecord) : EncryptedPackage :=
  { ciphertext := r.ciphertext, iv := r.iv, salt := r.salt,
    iterations := r.iterations, hash := r.hash }

/-- Source tryUnlock: on an empty store accept and record the password; else
trial-decrypt the first record, accept on success, and on any thrown error
lock and report failure.  The returned flag is the function's Boolean
result. -/
def tryUnlock (files : List FileRecord) (password : String) (s : SessionState) :
    SessionState × Bool :=
  match files with
  | [] => (setUnlockedState true { s with sessionPassword := some password }, true)
  | sample :: _ =>
      match decryptBuffer (pkgOfRecord sample) (some password) with
      | .ok _ => (setUnlockedState true { s with sessionPassword := some password }, true)
      | .error _ => (setUnlockedState false s, false)

/-- DB.saveFile via IndexedDB put with keyPath name: insert or replace by
name. -/
def saveFile (store : List FileRecord) (rec : FileRecord) : List FileRecord :=
  if store.any (fun r => r.name = rec.name)
  then store.map (fun r => if r.name = rec.name then rec else r)
  else store ++ [rec]

/-- DB.getFile: first record with the given name, none when absent. -/
def getFile (store : List FileRecord) (name : String) : Option FileRecord :=
  store.find? (fun r => r.name = name)

/-- A file handed to the controller by drag-drop or the file input. -/
structure AddedFile where
  name : String
  content : List Nat
  mimeType : String
deriving DecidableEq

/-- One invocation of the crypto helper by the controller: the trace entry
used to state that no cryptographic work happens while locked. -/
inductive CryptoCall
  | encryptRecord (name : String) (content : List Nat) (password : Option String)
  | decryptPackage (pkg : EncryptedPackage) (password : Option String)
deriving DecidableEq

/-- Errors surfaced by the controller guards. -/
inductive UiErr
  | sessionLocked
  | fileNotFound
deriving DecidableEq

/-- Source handleFilesAdded: reject when the session is locked or holds no
truthy password, before touching any file; otherwise loop over the files,
ask for overwrite confirmation on a name collision (the confirm dialog is the
external override argument), encrypt with the session password and save,
catching per-file failures.  Fresh salt and iv for the i-th file come from
the entropy argument (randomBytes in the source); now is the clock reading.
Returns the updated store and the crypto-helper invocations made. -/
def handleFilesAdded (s : SessionState) (store : List FileRecord)
    (files : List AddedFile) (override : String → Bool)
    (entropy : Nat → List Nat × List Nat) (now : String) :
    Except UiErr (List FileRecord) × List CryptoCall :=
  if ¬ (s.unlocked && strTruthy s.sessionPassword) then (.error .sessionLocked, [])
  else
    let step := fun (acc : List FileRecord × List CryptoCall × Nat) (file : AddedFile) =>
      let (st, calls, i) := acc
      let proceed :=
        match getFile st file.name with
        | some _ => override file.name
        | none => true
      if proceed then
        let (salt, iv) := entropy i
        let calls2 := calls ++ [CryptoCall.encryptRecord file.name file.content s.sessionPassword]
        match createEncryptedFileRecord file.name salt iv file.content s.sessionPassword now with
        | .ok rec => (saveFile st { rec with mimeType := file.mimeType }, calls2, i + 1)
        | .error _ => (st, calls2, i + 1)
      else (st, calls, i + 1)
    let r := files.foldl step (store, [], 0)
    (.ok r.1, r.2.1)

/-- Outcome of the download path. -/
inductive DlResult
  | notFound
  | cryptoError (e : CryptoErr)
  | cancelled
  | downloaded (data : List Nat) (ok : Bool)
deriving DecidableEq

/-- Source downloadFile: look the record up, decrypt it with the session
password (note: this function itself performs no lock check), on an integrity
mismatch ask for confirmation (the external proceed argument) and otherwise
hand the plaintext to the blob download.  Returns the outcome and the
crypto-helper invocations made. -/
def downloadFile (store : List FileRecord) (name : String)
    (password : Option String) (proceed : Bool) : DlResult × List CryptoCall :=
  match getFile store name with
  | none => (.notFound, [])
  | some rec =>
      match decryptBuffer (pkgOfRecord rec) password with
      | .error e => (.cryptoError e, [CryptoCall.decryptPackage (pkgOfRecord rec) password])
      | .ok result =>
          if result.ok = false ∧ proceed = false
          then (.cancelled, [CryptoCall.decryptPackage (pkgOfRecord rec) password])
          else (.downloaded result.arrayBuffer result.ok,
                [CryptoCall.decryptPackage (pkgOfRecord rec) password])

/-- The guarded download entry points of the UI (the per-row Download button
handler and the footer download button both test unlocked before calling
downloadFile). -/
def downloadFileClick (s : SessionState) (store : List FileRecord) (name : String)
    (proceed : Bool) : Except UiErr DlResult × List CryptoCall :=
  if ¬ s.unlocked then (.error .sessionLocked, [])
  else
    let r := downloadFile store name s.sessionPassword proceed
    (.ok r.1, r.2)

/-- The session every fresh page load starts in (init calls
setUnlockedState(false) with both module variables at their initial values). -/
def initialSession : SessionState :=
  { sessionPassword := none, unlocked := false }

/-- The reset confirmation handler's session effect: clear the password, then
setUnlockedState(false) (the store wipe and UI reset are external). -/
def resetEnvironment (s : SessionState) : SessionState :=
  setUnlockedState false { s with sessionPassword := none }

/-- Session states reachable in script.js.  The session variables are written
only by init on load (and the lock button, which reloads the page), by
tryUnlock, and by the reset flow; every other operation only reads them. -/
inductive ReachableSession : SessionState → Prop
  | init : ReachableSession initialSession
  | unlock (files : List FileRecord) (password : String) (s : SessionState) :
      ReachableSession s → ReachableSession (tryUnlock files password s).1
  | reset (s : SessionState) :
      ReachableSession s → ReachableSession (resetEnvironment s)

/-- The package that encryptBuffer assembles, written out explicitly. -/
def encPkg (salt iv p : List Nat) (w : String) : EncryptedPackage :=
  { ciphertext := ab2base64 (sealGCM ⟨w, salt, PBKDF2_ITERATIONS⟩ iv p),
    iv := ab2base64 iv,
    salt := ab2base64 salt,
    iterations := some PBKDF2_ITERATIONS,
    hash := some (hashBufferToBase64 p) }

/-- The decryption result encryptBuffer round-trips to. -/
def roundtripResult (p : List Nat) : DecryptResult :=
  { arrayBuffer := p, ok := true,
    expectedHash := some (hashBufferToBase64 p),
    computedHash := hashBufferToBase64 p }

/-- A minimal stored record used as concrete input; its empty binary fields
decode to empty byte strings. -/
def demoRecord : FileRecord :=
  { name := "f", createdAt := "", size := 0,
    ciphertext := "", iv := "", salt := "", iterations := none, hash := none }

/-- Concrete package and result exercising claim7: the round-trip package of
an empty plaintext under password a. -/
def demoPkg : EncryptedPackage := encPkg [] [] [] "a"

/-! ### Lemmas -/

lemma b64Index_b64Char : ∀ n : Fin 64, b64Index (b64Char n.val) = some n.val := by decide

lemma b64Char_ne_pad : ∀ n : Fin 64, b64Char n.val ≠ '=' := by decide

lemma b64Index_b64Char_of_lt {n : Nat} (h : n < 64) : b64Index (b64Char n) = some n :=
  b64Index_b64Char ⟨n, h⟩

lemma b64Char_ne_pad_of_lt {n : Nat} (h : n < 64) : b64Char n ≠ '=' :=
  b64Char_ne_pad ⟨n, h⟩

/-- Decoding inverts encoding on genuine byte lists. -/
lemma b64DecodeChars_b64EncodeBytes :
    ∀ bs : List Nat, (∀ b ∈ bs, b < 256) →
      b64DecodeChars (b64EncodeBytes bs) = some bs := by
  intro bs
  induction bs using b64EncodeBytes.induct with
  | case1 => intro _; rfl
  | case2 b0 =>
      intro hb
      have h0 : b0 < 256 := hb b0 (by simp)
      have e0 : b64Index (b64Char (b0 / 4)) = some (b0 / 4) :=
        b64Index_b64Char_of_lt (by omega)
      have e1 : b64Index (b64Char (b0 % 4 * 16)) = some (b0 % 4 * 16) :=
        b64Index_b64Char_of_lt (by omega)
      simp [b64EncodeBytes, b64DecodeChars, e0, e1]
      omega
  | case3 b0 b1 =>
      intro hb
      have h0 : b0 < 256 := hb b0 (by simp)
      have h1 : b1 < 256 := hb b1 (by simp)
      have e0 : b64Index (b64Char (b0 / 4)) = some (b0 / 4) :=
        b64Index_b64Char_of_lt (by omega)
      have e1 : b64Index (b64Char (b0 % 4 * 16 + b1 / 16)) = some (b0 % 4 * 16 + b1 / 16) :=
        b64Index_b64Char_of_lt (by omega)
      have e2 : b64Index (b64Char (b1 % 16 * 4)) = some (b1 % 16 * 4) :=
        b64Index_b64Char_of_lt (by omega)
      have ne1 : b64Char (b0 % 4 * 16 + b1 / 16) ≠ '=' := b64Char_ne_pad_of_lt (by omega)
      have ne2 : b64Char (b1 % 16 * 4) ≠ '=' := b64Char_ne_pad_of_lt (by omega)
      simp [b64EncodeBytes, b64DecodeChars, e0, e1, e2, ne1, ne2]
      omega
  | case4 b0 b1 b2 rest ih =>
      intro hb
      have h0 : b0 < 256 := hb b0 (by simp)
      have h1 : b1 < 256 := hb b1 (by simp)
      have h2 : b2 < 256 := hb b2 (by simp)
      have hrest : ∀ b ∈ rest, b < 256 := by
        intro b hbmem; exact hb b (by simp [hbmem])
      have e0 : b64Index (b64Char (b0 / 4)) = some (b0 / 4) :=
        b64Index_b64Char_of_lt (by omega)
      have e1 : b64Index (b64Char (b0 % 4 * 16 + b1 / 16)) = some (b0 % 4 * 16 + b1 / 16) :=
        b64Index_b64Char_of_lt (by omega)
      have e2 : b64Index (b64Char (b1 % 16 * 4 + b2 / 64)) = some (b1 % 16 * 4 + b2 / 64) :=
        b64Index_b64Char_of_lt (by omega)
      have e3 : b64Index (b64Char (b2 % 64)) = some (b2 % 64) :=
        b64Index_b64Char_of_lt (by omega)
      have ne2 : b64Char (b1 % 16 * 4 + b2 / 64) ≠ '=' := b64Char_ne_pad_of_lt (by omega)
      have ne3 : b64Char (b2 % 64) ≠ '=' := b64Char_ne_pad_of_lt (by omega)
      simp [b64EncodeBytes, b64DecodeChars, e0, e1, e2, e3, ne2, ne3, ih hrest]
      omega

/-- Decoding inverts encoding, stated on the string-level wrappers. -/
lemma base642ab_ab2base64 (bs : List Nat) (hb : ∀ b ∈ bs, b < 256) :
    base642ab (ab2base64 bs) = some bs := by
  simpa [base642ab, ab2base64] using b64DecodeChars_b64EncodeBytes bs hb

lemma digitsVal_natDigitsAux :
    ∀ fuel n : Nat, n ≤ fuel → digitsVal (natDigitsAux fuel n) = n := by
  intro fuel
  induction fuel with
  | zero =>
      intro n h
      have h0 : n = 0 := by omega
      simp [natDigitsAux, digitsVal, h0]
  | succ k ih =>
      intro n h
      by_cases h0 : n = 0
      · simp [natDigitsAux, h0, digitsVal]
      · have hr : n / 256 ≤ k := by
          have hlt : n / 256 < n := Nat.div_lt_self (Nat.pos_of_ne_zero h0) (by omega)
          omega
        simp [natDigitsAux, h0, digitsVal, ih (n / 256) hr]
        omega

lemma digitsVal_natDigits (n : Nat) : digitsVal (natDigits n) = n :=
  digitsVal_natDigitsAux n n le_rfl

lemma natDigitsAux_lt :
    ∀ fuel n : Nat, ∀ b ∈ natDigitsAux fuel n, b < 256 := by
  intro fuel
  induction fuel with
  | zero => intro n b hb; simp [natDigitsAux] at hb
  | succ k ih =>
      intro n b hb
      by_cases h0 : n = 0
      · simp [natDigitsAux, h0] at hb
      · simp only [natDigitsAux, if_neg h0] at hb
        rcases List.mem_cons.mp hb with hhd | htl
        · omega
        · exact ih (n / 256) b htl

lemma natDigits_lt (n : Nat) : ∀ b ∈ natDigits n, b < 256 :=
  natDigitsAux_lt n n

lemma decNat_digits (ds : List Nat) (r : List Nat) :
    decNat (ds.flatMap (fun d => [1, d]) ++ (0 :: r)) = some (digitsVal ds, r) := by
  induction ds with
  | nil => simp [decNat, digitsVal]
  | cons d ds ih =>
      have ih2 : decNat ((List.map (fun d => [1, d]) ds).flatten ++ 0 :: r)
          = some (digitsVal ds, r) := by
        simpa [List.flatMap] using ih
      simp [decNat, digitsVal, ih2]

lemma decNat_encNat (n : Nat) (r : List Nat) :
    decNat (encNat n ++ r) = some (n, r) := by
  have h := decNat_digits (natDigits n) r
  rw [digitsVal_natDigits] at h
  simpa [encNat] using h

lemma encNat_lt (n : Nat) : ∀ b ∈ encNat n, b < 256 := by
  intro b hb
  simp only [encNat, List.mem_append, List.mem_flatMap] at hb
  rcases hb with ⟨d, hd, hmem⟩ | hzero
  · have hdlt := natDigits_lt n d hd
    simp at hmem
    rcases hmem with h1 | h2 <;> omega
  · simp at hzero; omega

lemma decListAux_enc (l : List Nat) (r : List Nat) :
    decListAux l.length (l.flatMap encNat ++ r) = some (l, r) := by
  induction l with
  | nil => simp [decListAux]
  | cons n l ih =>
      simp only [List.length_cons, List.flatMap_cons, List.append_assoc, decListAux,
        decNat_encNat, ih]

lemma decList_encList (l : List Nat) (r : List Nat) :
    decList (encList l ++ r) = some (l, r) := by
  simp [decList, encList, List.append_assoc, decNat_encNat, decListAux_enc]

lemma encList_lt (l : List Nat) : ∀ b ∈ encList l, b < 256 := by
  intro b hb
  simp only [encList, List.mem_append, List.mem_flatMap] at hb
  rcases hb with hlen | ⟨n, _, hmem⟩
  · exact encNat_lt _ b hlen
  · exact encNat_lt n b hmem

lemma strOfCodes_strCodes (s : String) : strOfCodes (strCodes s) = s := by
  simp only [strOfCodes, strCodes, List.map_map]
  have h : (Char.ofNat ∘ Char.toNat) = id := by
    funext c
    simp [Function.comp, Char.ofNat_toNat]
  simp [h]

lemma decList_encList_nil (l : List Nat) : decList (encList l) = some (l, []) := by
  simpa using decList_encList l []

lemma decodeTriple_encodeTriple (k : CryptoKey) (iv pt : List Nat) :
    decodeTriple (encodeTriple k iv pt) = some (k, iv, pt) := by
  cases k with
  | mk pw salt iters =>
      simp [decodeTriple, encodeTriple, List.append_assoc, decList_encList,
        decNat_encNat, decList_encList_nil, strOfCodes_strCodes]

lemma encodeTriple_lt (k : CryptoKey) (iv pt : List Nat) :
    ∀ b ∈ encodeTriple k iv pt, b < 256 := by
  intro b hb
  simp only [encodeTriple, List.mem_append] at hb
  rcases hb with ((((h | h) | h) | h) | h)
  · exact encList_lt _ b h
  · exact encList_lt _ b h
  · exact encNat_lt _ b h
  · exact encList_lt _ b h
  · exact encList_lt _ b h

lemma sealGCM_lt (k : CryptoKey) (iv pt : List Nat) :
    ∀ b ∈ sealGCM k iv pt, b < 256 := by
  intro b hb
  simp only [sealGCM, List.mem_append] at hb
  rcases hb with h | h <;> exact encodeTriple_lt k iv pt b h

lemma sealGCM_take_half (k : CryptoKey) (iv pt : List Nat) :
    (sealGCM k iv pt).take ((sealGCM k iv pt).length / 2) = encodeTriple k iv pt := by
  have h : (sealGCM k iv pt).length / 2 = (encodeTriple k iv pt).length := by
    simp [sealGCM]; omega
  rw [h, sealGCM, List.take_left]

lemma sealGCM_drop_half (k : CryptoKey) (iv pt : List Nat) :
    (sealGCM k iv pt).drop ((sealGCM k iv pt).length / 2) = encodeTriple k iv pt := by
  have h : (sealGCM k iv pt).length / 2 = (encodeTriple k iv pt).length := by
    simp [sealGCM]; omega
  rw [h, sealGCM, List.drop_left]

lemma openGCM_sealGCM (k : CryptoKey) (iv pt : List Nat) :
    openGCM k iv (sealGCM k iv pt) = some pt := by
  simp only [openGCM]
  rw [sealGCM_take_half, sealGCM_drop_half]
  simp [decodeTriple_encodeTriple]

/-- Opening a genuine seal under a mismatched key or nonce fails. -/
lemma openGCM_sealGCM_mismatch (k k2 : CryptoKey) (iv iv2 pt : List Nat)
    (h : k ≠ k2 ∨ iv ≠ iv2) :
    openGCM k2 iv2 (sealGCM k iv pt) = none := by
  simp only [openGCM]
  rw [sealGCM_take_half, sealGCM_drop_half]
  simp [decodeTriple_encodeTriple]
  intro hk
  rcases h with h | h
  · exact absurd hk h
  · exact h

lemma openGCM_of_halves_ne (key : CryptoKey) (iv : List Nat) (ct : List Nat)
    (h : ct.take (ct.length / 2) ≠ ct.drop (ct.length / 2)) :
    openGCM key iv ct = none := by
  simp only [openGCM]
  simp [h]

/-- Any single-byte alteration of a sealed ciphertext makes open fail, under
every key and nonce. -/
lemma openGCM_set (k k2 : CryptoKey) (iv iv2 pt : List Nat) (i v : Nat)
    (hi : i < (sealGCM k iv pt).length)
    (hv : v ≠ (sealGCM k iv pt).getD i 0) :
    openGCM k2 iv2 ((sealGCM k iv pt).set i v) = none := by
  apply openGCM_of_halves_ne
  set l := encodeTriple k iv pt with hl
  set n := l.length with hn
  have hseal : sealGCM k iv pt = l ++ l := rfl
  rw [hseal] at hi hv ⊢
  have hlenLL : (l ++ l).length = n + n := by simp [List.length_append]
  have hlen : ((l ++ l).set i v).length = n + n := by simp [List.length_set, List.length_append]
  have hhalf : ((l ++ l).set i v).length / 2 = n := by rw [hlen]; omega
  rw [hhalf]
  rw [hlenLL] at hi
  intro heq
  by_cases hcase : i < n
  · have h1 : (((l ++ l).set i v).take n).getD i 0 = v := by
      simp only [List.getD_eq_getElem?_getD, List.getElem?_take]
      rw [if_pos hcase]
      rw [List.getElem?_set_self (by omega)]
      rfl
    have h2 : (((l ++ l).set i v).drop n).getD i 0 = (l ++ l).getD i 0 := by
      simp only [List.getD_eq_getElem?_getD, List.getElem?_drop]
      rw [List.getElem?_set_ne (by omega : i ≠ n + i)]
      rw [List.getElem?_append_right (by omega : l.length ≤ n + i)]
      rw [List.getElem?_append]
      rw [if_pos (show i < l.length by omega)]
      have hidx : n + i - l.length = i := by omega
      rw [hidx]
    rw [heq] at h1
    rw [h1] at h2
    exact hv h2
  · have hj : i - n < n := by omega
    have h1 : (((l ++ l).set i v).take n).getD (i - n) 0 = (l ++ l).getD i 0 := by
      simp only [List.getD_eq_getElem?_getD, List.getElem?_take]
      rw [if_pos hj]
      rw [List.getElem?_set_ne (by omega : i ≠ i - n)]
      rw [List.getElem?_append_right (by omega : l.length ≤ i)]
      rw [List.getElem?_append]
      rw [if_pos (show i - n < l.length by omega)]
    have h2 : (((l ++ l).set i v).drop n).getD (i - n) 0 = v := by
      simp only [List.getD_eq_getElem?_getD, List.getElem?_drop]
      have : n + (i - n) = i := by omega
      rw [this]
      rw [List.getElem?_set_self (by omega)]
      rfl
    rw [heq] at h1
    rw [h2] at h1
    exact hv h1

lemma strTruthy_some {w : String} (hw : w ≠ "") : strTruthy (some w) = true := by
  have h : w.isEmpty = false := by
    by_contra hc
    have ht : w.isEmpty = true := by revert hc; cases w.isEmpty <;> simp
    exact hw ((String.isEmpty_iff w).mp ht)
  simp [strTruthy, h]

lemma sha256Model_ne_nil (bs : List Nat) : sha256Model bs ≠ [] := by
  simp [sha256Model]

lemma b64EncodeBytes_ne_nil (l : List Nat) (h : l ≠ []) : b64EncodeBytes l ≠ [] := by
  cases l with
  | nil => exact absurd rfl h
  | cons b0 t =>
      cases t with
      | nil => simp [b64EncodeBytes]
      | cons b1 t2 =>
          cases t2 with
          | nil => simp [b64EncodeBytes]
          | cons b2 r => simp [b64EncodeBytes]

lemma hashBufferToBase64_ne_empty (bs : List Nat) : hashBufferToBase64 bs ≠ "" := by
  intro h
  have hdata := congrArg String.data h
  simp only [hashBufferToBase64, ab2base64] at hdata
  exact b64EncodeBytes_ne_nil _ (sha256Model_ne_nil bs) hdata

lemma encryptBuffer_eq (salt iv p : List Nat) (w : String) (hw : w ≠ "") :
    encryptBuffer salt iv p (some w) = .ok (encPkg salt iv p w) := by
  simp [encryptBuffer, strTruthy_some hw, deriveKeyFromPassword, encPkg]

/-- Behavior of decryptBuffer on a package produced by encryptBuffer, with an
arbitrary value in the stored iterations field and an arbitrary non-empty
candidate password: success exactly when the password matches and the
effective iteration count reproduces the encryption-time key, the single
undifferentiated error otherwise. -/
lemma decryptBuffer_encPkg (salt iv p : List Nat) (w w2 : String) (it : Option Nat)
    (hw2 : w2 ≠ "") (hsalt : ∀ b ∈ salt, b < 256) (hiv : ∀ b ∈ iv, b < 256) :
    decryptBuffer { encPkg salt iv p w with iterations := it } (some w2) =
      if w2 = w ∧ effectiveIterations it = PBKDF2_ITERATIONS
      then .ok (roundtripResult p)
      else .error .wrongPasswordOrCorruptData := by
  have hct : base642ab (ab2base64 (sealGCM ⟨w, salt, PBKDF2_ITERATIONS⟩ iv p))
      = some (sealGCM ⟨w, salt, PBKDF2_ITERATIONS⟩ iv p) :=
    base642ab_ab2base64 _ (sealGCM_lt _ _ _)
  have hivd : base642ab (ab2base64 iv) = some iv := base642ab_ab2base64 iv hiv
  have hsaltd : base642ab (ab2base64 salt) = some salt := base642ab_ab2base64 salt hsalt
  by_cases hcond : w2 = w ∧ effectiveIterations it = PBKDF2_ITERATIONS
  · obtain ⟨h1, h2⟩ := hcond
    subst h1
    simp [decryptBuffer, encPkg, strTruthy_some hw2, hct, hivd, hsaltd,
      deriveKeyFromPassword, h2, openGCM_sealGCM, roundtripResult,
      hashBufferToBase64_ne_empty p]
  · have hkey : (⟨w, salt, PBKDF2_ITERATIONS⟩ : CryptoKey)
        ≠ ⟨w2, salt, effectiveIterations it⟩ := by
      intro h
      injection h with ha hb hc
      exact hcond ⟨ha.symm, hc.symm⟩
    have hopen := openGCM_sealGCM_mismatch ⟨w, salt, PBKDF2_ITERATIONS⟩
      ⟨w2, salt, effectiveIterations it⟩ iv iv p (Or.inl hkey)
    simp [decryptBuffer, encPkg, strTruthy_some hw2, hct, hivd, hsaltd,
      deriveKeyFromPassword, hopen, hcond]

lemma effectiveIterations_default :
    effectiveIterations (some PBKDF2_ITERATIONS) = PBKDF2_ITERATIONS := by
  simp [effectiveIterations, PBKDF2_ITERATIONS]

lemma set_bytes_lt (l : List Nat) (i v : Nat) (hl : ∀ b ∈ l, b < 256) (hv : v < 256) :
    ∀ b ∈ l.set i v, b < 256 := by
  intro b hb
  rcases List.mem_or_eq_of_mem_set hb with h | h
  · exact hl b h
  · omega

lemma getD_set_self (l : List Nat) (j u : Nat) (hj : j < l.length) :
    (l.set j u).getD j 0 = u := by
  simp [List.getD_eq_getElem?_getD, List.getElem?_set_self, hj]

lemma set_ne_self (l : List Nat) (j u : Nat) (hj : j < l.length) (hu : u ≠ l.getD j 0) :
    l.set j u ≠ l := by
  intro h
  have h2 := congrArg (fun t => t.getD j 0) h
  simp only at h2
  rw [getD_set_self l j u hj] at h2
  exact hu h2

/-- Flipping one ciphertext byte of a package produced by encryptBuffer makes
decryption with the correct password fail with the undifferentiated error. -/
lemma decryptBuffer_tamper_ct (salt iv p : List Nat) (w : String) (i v : Nat)
    (hw : w ≠ "") (hsalt : ∀ b ∈ salt, b < 256) (hiv : ∀ b ∈ iv, b < 256)
    (hi : i < (sealGCM ⟨w, salt, PBKDF2_ITERATIONS⟩ iv p).length)
    (hvlt : v < 256)
    (hv : v ≠ (sealGCM ⟨w, salt, PBKDF2_ITERATIONS⟩ iv p).getD i 0) :
    decryptBuffer { encPkg salt iv p w with
        ciphertext := ab2base64 ((sealGCM ⟨w, salt, PBKDF2_ITERATIONS⟩ iv p).set i v) }
      (some w) = .error .wrongPasswordOrCorruptData := by
  have hct : base642ab (ab2base64 ((sealGCM ⟨w, salt, PBKDF2_ITERATIONS⟩ iv p).set i v))
      = some ((sealGCM ⟨w, salt, PBKDF2_ITERATIONS⟩ iv p).set i v) :=
    base642ab_ab2base64 _ (set_bytes_lt _ _ _ (sealGCM_lt _ _ _) hvlt)
  have hopen := openGCM_set ⟨w, salt, PBKDF2_ITERATIONS⟩ ⟨w, salt, PBKDF2_ITERATIONS⟩
    iv iv p i v hi hv
  simp [decryptBuffer, encPkg, strTruthy_some hw, hct,
    base642ab_ab2base64 iv hiv, base642ab_ab2base64 salt hsalt,
    deriveKeyFromPassword, effectiveIterations_default, hopen]

/-- Flipping one nonce (iv) byte of a package produced by encryptBuffer makes
decryption with the correct password fail with the undifferentiated error. -/
lemma decryptBuffer_tamper_iv (salt iv p : List Nat) (w : String) (j u : Nat)
    (hw : w ≠ "") (hsalt : ∀ b ∈ salt, b < 256) (hiv : ∀ b ∈ iv, b < 256)
    (hj : j < iv.length) (hult : u < 256) (hu : u ≠ iv.getD j 0) :
    decryptBuffer { encPkg salt iv p w with iv := ab2base64 (iv.set j u) }
      (some w) = .error .wrongPasswordOrCorruptData := by
  have hivt : base642ab (ab2base64 (iv.set j u)) = some (iv.set j u) :=
    base642ab_ab2base64 _ (set_bytes_lt _ _ _ hiv hult)
  have hivne : iv ≠ iv.set j u := (set_ne_self iv j u hj hu).symm
  have hopen := openGCM_sealGCM_mismatch ⟨w, salt, PBKDF2_ITERATIONS⟩
    ⟨w, salt, PBKDF2_ITERATIONS⟩ iv (iv.set j u) p (Or.inr hivne)
  simp [decryptBuffer, encPkg, strTruthy_some hw, hivt,
    base642ab_ab2base64 _ (sealGCM_lt ⟨w, salt, PBKDF2_ITERATIONS⟩ iv p),
    base642ab_ab2base64 salt hsalt,
    deriveKeyFromPassword, effectiveIterations_default, hopen]

/-- Flipping one salt byte of a package produced by encryptBuffer makes
decryption with the correct password fail with the undifferentiated error. -/
lemma decryptBuffer_tamper_salt (salt iv p : List Nat) (w : String) (j u : Nat)
    (hw : w ≠ "") (hsalt : ∀ b ∈ salt, b < 256) (hiv : ∀ b ∈ iv, b < 256)
    (hj : j < salt.length) (hult : u < 256) (hu : u ≠ salt.getD j 0) :
    decryptBuffer { encPkg salt iv p w with salt := ab2base64 (salt.set j u) }
      (some w) = .error .wrongPasswordOrCorruptData := by
  have hsaltt : base642ab (ab2base64 (salt.set j u)) = some (salt.set j u) :=
    base642ab_ab2base64 _ (set_bytes_lt _ _ _ hsalt hult)
  have hkne : (⟨w, salt, PBKDF2_ITERATIONS⟩ : CryptoKey)
      ≠ ⟨w, salt.set j u, PBKDF2_ITERATIONS⟩ := by
    intro h
    injection h with ha hb hc
    exact (set_ne_self salt j u hj hu) hb.symm
  have hopen := openGCM_sealGCM_mismatch ⟨w, salt, PBKDF2_ITERATIONS⟩
    ⟨w, salt.set j u, PBKDF2_ITERATIONS⟩ iv iv p (Or.inl hkne)
  simp [decryptBuffer, encPkg, strTruthy_some hw, hsaltt,
    base642ab_ab2base64 _ (sealGCM_lt ⟨w, salt, PBKDF2_ITERATIONS⟩ iv p),
    base642ab_ab2base64 iv hiv,
    deriveKeyFromPassword, effectiveIterations_default, hopen]

/-! ### Claim theorems and witnesses -/

/-- C1: for every plaintext buffer p and non-empty password w (salt and iv
being the byte strings that encryptBuffer draws from randomBytes), decrypting
the package produced by encryptBuffer with the same password recovers exactly
p and reports the integrity flag true. -/
theorem claim1_roundtrip (salt iv p : List Nat) (w : String) (pkg : EncryptedPackage)
    (hw : w ≠ "") (hsalt : ∀ b ∈ salt, b < 256) (hiv : ∀ b ∈ iv, b < 256)
    (henc : encryptBuffer salt iv p (some w) = .ok pkg) :
    decryptBuffer pkg (some w) = .ok (roundtripResult p) ∧
    (roundtripResult p).arrayBuffer = p ∧ (roundtripResult p).ok = true := by
  rw [encryptBuffer_eq salt iv p w hw] at henc
  injection henc with henc
  subst henc
  have key := decryptBuffer_encPkg salt iv p w w (some PBKDF2_ITERATIONS) hw hsalt hiv
  rw [if_pos ⟨rfl, effectiveIterations_default⟩] at key
  refine ⟨?_, rfl, rfl⟩
  simpa [encPkg] using key

theorem claim1_roundtrip_witness :
    decryptBuffer (encPkg [0] [1] [2] "a") (some "a") = .ok (roundtripResult [2]) :=
  (claim1_roundtrip [0] [1] [2] "a" (encPkg [0] [1] [2] "a") (by decide)
    (by decide) (by decide) (encryptBuffer_eq [0] [1] [2] "a" (by decide))).1

/-- C2: decrypting a package encrypted under w1 with a distinct non-empty
password w2 fails with the single undifferentiated
wrongPasswordOrCorruptData error; moreover whatever makes the authenticated
open fail is surfaced as that one error, so a caller cannot tell a wrong
password from corrupted data. -/
theorem claim2_wrong_password (salt iv p : List Nat) (w1 w2 : String)
    (pkg : EncryptedPackage)
    (hw1 : w1 ≠ "") (hw2 : w2 ≠ "") (hne : w1 ≠ w2)
    (hsalt : ∀ b ∈ salt, b < 256) (hiv : ∀ b ∈ iv, b < 256)
    (henc : encryptBuffer salt iv p (some w1) = .ok pkg) :
    decryptBuffer pkg (some w2) = .error .wrongPasswordOrCorruptData ∧
    (∀ (q : EncryptedPackage) (w : String), w ≠ "" →
      ∀ cts ivs salts : List Nat,
        base642ab q.ciphertext = some cts → base642ab q.iv = some ivs →
        base642ab q.salt = some salts →
        openGCM ⟨w, salts, effectiveIterations q.iterations⟩ ivs cts = none →
        decryptBuffer q (some w) = .error .wrongPasswordOrCorruptData) := by
  constructor
  · rw [encryptBuffer_eq salt iv p w1 hw1] at henc
    injection henc with henc
    subst henc
    have key := decryptBuffer_encPkg salt iv p w1 w2 (some PBKDF2_ITERATIONS) hw2 hsalt hiv
    rw [if_neg (by rintro ⟨h, -⟩; exact hne h.symm)] at key
    simpa [encPkg] using key
  · intro q w hwne cts ivs salts hcts hivs hsalts hopen
    simp [decryptBuffer, strTruthy_some hwne, hcts, hivs, hsalts,
      deriveKeyFromPassword, hopen]

theorem claim2_wrong_password_witness :
    decryptBuffer (encPkg [0] [1] [2] "a") (some "b") = .error .wrongPasswordOrCorruptData :=
  (claim2_wrong_password [0] [1] [2] "a" "b" (encPkg [0] [1] [2] "a") (by decide)
    (by decide) (by decide) (by decide) (by decide)
    (encryptBuffer_eq [0] [1] [2] "a" (by decide))).1

/-- C3: flipping any single byte of the ciphertext, nonce (iv) or salt bytes
of a package produced by encryptBuffer makes decryption with the original
correct password fail with wrongPasswordOrCorruptData instead of returning an
altered plaintext. -/
theorem claim3_tamper (salt iv p : List Nat) (w : String) (pkg : EncryptedPackage)
    (hw : w ≠ "") (hsalt : ∀ b ∈ salt, b < 256) (hiv : ∀ b ∈ iv, b < 256)
    (henc : encryptBuffer salt iv p (some w) = .ok pkg) :
    (∀ cts : List Nat, base642ab pkg.ciphertext = some cts →
      ∀ i v : Nat, i < cts.length → v < 256 → v ≠ cts.getD i 0 →
        decryptBuffer { pkg with ciphertext := ab2base64 (cts.set i v) } (some w)
          = .error .wrongPasswordOrCorruptData) ∧
    (∀ ivs : List Nat, base642ab pkg.iv = some ivs →
      ∀ j u : Nat, j < ivs.length → u < 256 → u ≠ ivs.getD j 0 →
        decryptBuffer { pkg with iv := ab2base64 (ivs.set j u) } (some w)
          = .error .wrongPasswordOrCorruptData) ∧
    (∀ salts : List Nat, base642ab pkg.salt = some salts →
      ∀ j u : Nat, j < salts.length → u < 256 → u ≠ salts.getD j 0 →
        decryptBuffer { pkg with salt := ab2base64 (salts.set j u) } (some w)
          = .error .wrongPasswordOrCorruptData) := by
  rw [encryptBuffer_eq salt iv p w hw] at henc
  injection henc with henc
  subst henc
  refine ⟨?_, ?_, ?_⟩
  · intro cts hcts i v hi hvlt hv
    have hdec : base642ab (encPkg salt iv p w).ciphertext
        = some (sealGCM ⟨w, salt, PBKDF2_ITERATIONS⟩ iv p) :=
      base642ab_ab2base64 _ (sealGCM_lt _ _ _)
    rw [hdec] at hcts
    injection hcts with hcts
    subst hcts
    exact decryptBuffer_tamper_ct salt iv p w i v hw hsalt hiv hi hvlt hv
  · intro ivs hivs j u hj hult hu
    have hdec : base642ab (encPkg salt iv p w).iv = some iv :=
      base642ab_ab2base64 iv hiv
    rw [hdec] at hivs
    injection hivs with hivs
    subst hivs
    exact decryptBuffer_tamper_iv salt iv p w j u hw hsalt hiv hj hult hu
  · intro salts hsalts j u hj hult hu
    have hdec : base642ab (encPkg salt iv p w).salt = some salt :=
      base642ab_ab2base64 salt hsalt
    rw [hdec] at hsalts
    injection hsalts with hsalts
    subst hsalts
    exact decryptBuffer_tamper_salt salt iv p w j u hw hsalt hiv hj hult hu

theorem claim3_tamper_witness :
    decryptBuffer { encPkg [0] [1] [2] "a" with
        ciphertext := ab2base64 ((sealGCM ⟨"a", [0], PBKDF2_ITERATIONS⟩ [1] [2]).set 0 2) }
      (some "a") = .error .wrongPasswordOrCorruptData :=
  (claim3_tamper [0] [1] [2] "a" (encPkg [0] [1] [2] "a") (by decide) (by decide)
      (by decide) (encryptBuffer_eq [0] [1] [2] "a" (by decide))).1
    (sealGCM ⟨"a", [0], PBKDF2_ITERATIONS⟩ [1] [2])
    (base642ab_ab2base64 _ (sealGCM_lt _ _ _))
    0 2 (by decide) (by decide) (by decide)

/-- C4 counterexample: deriveKeyFromPassword accepts the empty password and
returns a key; it does not fail, because the source only checks that the
argument is a string. -/
theorem claim4_counterexample :
    deriveKeyFromPassword (some "") [0] 200000 = .ok ⟨"", [0], 200000⟩ := rfl

/-- C4 amended: the key-derivation function itself performs no emptiness
check and succeeds on the empty password for every salt and iteration count;
the empty-password rejection happens one level up, in encryptBuffer and
decryptBuffer, which fail with the invalid-input error before any key
derivation. -/
theorem claim4_empty_password (salt iv buf : List Nat) (pkg : EncryptedPackage)
    (iterations : Nat) :
    deriveKeyFromPassword (some "") salt iterations = .ok ⟨"", salt, iterations⟩ ∧
    encryptBuffer salt iv buf (some "") = .error .invalidPassword ∧
    decryptBuffer pkg (some "") = .error .invalidPassword := by
  have hft : strTruthy (some "") = false := by decide
  refine ⟨rfl, ?_, ?_⟩
  · simp [encryptBuffer, hft]
  · simp [decryptBuffer, hft]

/-- C5 counterexample: on a non-empty store, acceptance is not equivalent to
the trial decryption not raising wrongPasswordOrCorruptData: with the empty
password the trial decryption raises the invalid-password error, which is a
different error, and the unlock is still rejected. -/
theorem claim5_counterexample :
    decryptBuffer (pkgOfRecord demoRecord) (some "") = .error .invalidPassword ∧
    CryptoErr.invalidPassword ≠ CryptoErr.wrongPasswordOrCorruptData ∧
    tryUnlock [demoRecord] "" initialSession
      = ({ sessionPassword := none, unlocked := false }, false) := by
  refine ⟨rfl, by decide, rfl⟩

/-- C5 amended: on an empty store tryUnlock accepts unconditionally, records
the supplied password in the session and unlocks; on a non-empty store it
trial-decrypts exactly the first record, accepts and records the password
exactly when that decryption raises no error at all, and otherwise clears the
password, stays locked and reports failure.  (When the password is non-empty
and the record fields are decodable base64 the only possible error is
wrongPasswordOrCorruptData, so acceptance then coincides with not raising
that error.) -/
theorem claim5_unlock (pw : String) (s : SessionState) (sample : FileRecord)
    (rest : List FileRecord) :
    tryUnlock [] pw s = ({ sessionPassword := some pw, unlocked := true }, true) ∧
    ((tryUnlock (sample :: rest) pw s).2 = true
      ↔ (decryptBuffer (pkgOfRecord sample) (some pw)).isOk = true) ∧
    ((decryptBuffer (pkgOfRecord sample) (some pw)).isOk = true →
      tryUnlock (sample :: rest) pw s
        = ({ sessionPassword := some pw, unlocked := true }, true)) ∧
    ((decryptBuffer (pkgOfRecord sample) (some pw)).isOk = false →
      tryUnlock (sample :: rest) pw s
        = ({ sessionPassword := none, unlocked := false }, false)) := by
  refine ⟨by simp [tryUnlock, setUnlockedState], ?_, ?_, ?_⟩
  · cases hdec : decryptBuffer (pkgOfRecord sample) (some pw) with
    | ok r => simp [tryUnlock, hdec, setUnlockedState, Except.isOk, Except.toBool]
    | error e => simp [tryUnlock, hdec, setUnlockedState, Except.isOk, Except.toBool]
  · intro h
    cases hdec : decryptBuffer (pkgOfRecord sample) (some pw) with
    | ok r => simp [tryUnlock, hdec, setUnlockedState]
    | error e => rw [hdec] at h; simp [Except.isOk, Except.toBool] at h
  · intro h
    cases hdec : decryptBuffer (pkgOfRecord sample) (some pw) with
    | ok r => rw [hdec] at h; simp [Except.isOk, Except.toBool] at h
    | error e => simp [tryUnlock, hdec, setUnlockedState]

theorem claim5_unlock_witness :
    tryUnlock [demoRecord] "a" initialSession
      = ({ sessionPassword := none, unlocked := false }, false) :=
  (claim5_unlock "a" initialSession demoRecord []).2.2.2 (by decide)

/-- C6: while the session is locked, the add-files operation and the guarded
download entry point both reject with sessionLocked and make no
crypto-helper invocation at all (the returned call trace is empty), for every
store, file list, override answer, entropy supply and record name. -/
theorem claim6_locked_rejects (s : SessionState) (hs : s.unlocked = false)
    (store : List FileRecord) (files : List AddedFile) (override : String → Bool)
    (entropy : Nat → List Nat × List Nat) (now : String) (name : String)
    (proceed : Bool) :
    handleFilesAdded s store files override entropy now = (.error .sessionLocked, []) ∧
    downloadFileClick s store name proceed = (.error .sessionLocked, []) := by
  constructor
  · simp [handleFilesAdded, hs]
  · simp [downloadFileClick, hs]

theorem claim6_locked_rejects_witness :
    handleFilesAdded initialSession [] [] (fun _ => true) (fun _ => ([], [])) ""
      = (.error .sessionLocked, []) ∧
    downloadFileClick initialSession [] "f" true = (.error .sessionLocked, []) :=
  claim6_locked_rejects initialSession rfl [] [] (fun _ => true)
    (fun _ => ([], [])) "" "f" true

/-- C7: on every successful decryption the result carries the recomputed
fingerprint of the recovered plaintext, and the integrity flag equals the
comparison of that recomputed fingerprint with the stored one whenever the
record carries a (truthy, i.e. non-empty) fingerprint, and is true when the
record carries none; the flag is returned in the result object, not raised. -/
theorem claim7_integrity (pkg : EncryptedPackage) (pw : Option String)
    (r : DecryptResult) (h : decryptBuffer pkg pw = .ok r) :
    r.computedHash = hashBufferToBase64 r.arrayBuffer ∧
    r.expectedHash = (match pkg.hash with
      | some e => if e = "" then none else some e
      | none => none) ∧
    r.ok = (match pkg.hash with
      | some e => if e = "" then true else (hashBufferToBase64 r.arrayBuffer == e)
      | none => true) := by
  unfold decryptBuffer at h
  split at h
  · exact absurd h (by simp)
  · split at h
    · exact absurd h (by simp)
    · split at h
      · exact absurd h (by simp)
      · split at h
        · exact absurd h (by simp)
        · split at h
          · exact absurd h (by simp)
          · split at h
            · exact absurd h (by simp)
            · injection h with h
              subst h
              refine ⟨rfl, ?_, ?_⟩ <;>
                cases hh : pkg.hash with
                | none => simp [hh]
                | some e =>
                    by_cases he : e = "" <;> simp [hh, he]

theorem claim7_integrity_witness :
    (roundtripResult []).computedHash
      = hashBufferToBase64 (roundtripResult []).arrayBuffer :=
  (claim7_integrity demoPkg (some "a") (roundtripResult [])
    (by
      have key := decryptBuffer_encPkg [] [] [] "a" "a" (some PBKDF2_ITERATIONS)
        (by decide) (by decide) (by decide)
      rw [if_pos ⟨rfl, effectiveIterations_default⟩] at key
      simpa [demoPkg, encPkg] using key)).1

/-- C8: base64 decoding inverts base64 encoding on every byte sequence,
including the empty one. -/
theorem claim8_base64_roundtrip (x : List Nat) (hx : ∀ b ∈ x, b < 256) :
    base642ab (ab2base64 x) = some x :=
  base642ab_ab2base64 x hx

theorem claim8_base64_roundtrip_witness :
    base642ab (ab2base64 [0, 255, 7]) = some [0, 255, 7] ∧
    base642ab (ab2base64 []) = some [] :=
  ⟨claim8_base64_roundtrip [0, 255, 7] (by decide),
   claim8_base64_roundtrip [] (by decide)⟩

/-- C9: moving to the locked state clears the session password immediately,
and in every reachable session state being locked implies the session
password is null. -/
theorem claim9_locked_no_password :
    (∀ s : SessionState, (setUnlockedState false s).sessionPassword = none) ∧
    (∀ s : SessionState, ReachableSession s → s.unlocked = false →
      s.sessionPassword = none) := by
  constructor
  · intro s; simp [setUnlockedState]
  · intro s h
    induction h with
    | init => intro _; rfl
    | unlock files pw s hs ih =>
        cases files with
        | nil => simp [tryUnlock, setUnlockedState]
        | cons sample rest =>
            cases hdec : decryptBuffer (pkgOfRecord sample) (some pw) with
            | ok r => simp [tryUnlock, hdec, setUnlockedState]
            | error e => simp [tryUnlock, hdec, setUnlockedState]
    | reset s hs ih => simp [resetEnvironment, setUnlockedState]

theorem claim9_locked_no_password_witness :
    (resetEnvironment (tryUnlock [] "a" initialSession).1).sessionPassword = none :=
  claim9_locked_no_password.2 _
    (ReachableSession.reset _ (ReachableSession.unlock [] "a" _ ReachableSession.init))
    rfl

/-- C10: the default work factor is 200000; a package whose stored iterations
field is absent or zero is decrypted with that default (so a package sealed
at the default still decrypts), while a non-zero stored value is honored as
is (so decryption with a differing non-zero stored value derives a different
key and fails). -/
theorem claim10_iteration_fallback (salt iv p : List Nat) (w : String)
    (pkg : EncryptedPackage) (n : Nat)
    (hw : w ≠ "") (hsalt : ∀ b ∈ salt, b < 256) (hiv : ∀ b ∈ iv, b < 256)
    (henc : encryptBuffer salt iv p (some w) = .ok pkg) :
    PBKDF2_ITERATIONS = 200000 ∧
    effectiveIterations none = PBKDF2_ITERATIONS ∧
    effectiveIterations (some 0) = PBKDF2_ITERATIONS ∧
    (n ≠ 0 → effectiveIterations (some n) = n) ∧
    decryptBuffer { pkg with iterations := none } (some w) = .ok (roundtripResult p) ∧
    decryptBuffer { pkg with iterations := some 0 } (some w) = .ok (roundtripResult p) ∧
    (n ≠ 0 → n ≠ PBKDF2_ITERATIONS →
      decryptBuffer { pkg with iterations := some n } (some w)
        = .error .wrongPasswordOrCorruptData) := by
  rw [encryptBuffer_eq salt iv p w hw] at henc
  injection henc with henc
  subst henc
  refine ⟨rfl, rfl, by simp [effectiveIterations], fun hn => by simp [effectiveIterations, hn],
    ?_, ?_, ?_⟩
  · have key := decryptBuffer_encPkg salt iv p w w none hw hsalt hiv
    rwa [if_pos ⟨rfl, rfl⟩] at key
  · have key := decryptBuffer_encPkg salt iv p w w (some 0) hw hsalt hiv
    rwa [if_pos ⟨rfl, by simp [effectiveIterations]⟩] at key
  · intro hn hne
    have key := decryptBuffer_encPkg salt iv p w w (some n) hw hsalt hiv
    rwa [if_neg (by rintro ⟨-, h⟩; simp [effectiveIterations, hn] at h; exact hne h)] at key

theorem claim10_iteration_fallback_witness :
    decryptBuffer { encPkg [0] [1] [2] "a" with iterations := some 0 } (some "a")
      = .ok (roundtripResult [2]) :=
  (claim10_iteration_fallback [0] [1] [2] "a" (encPkg [0] [1] [2] "a") 3 (by decide)
      (by decide) (by decide) (encryptBuffer_eq [0] [1] [2] "a" (by decide))).2.2.2.2.2.1

end EFS
